import Mathlib

/-!
# Verification of the auto-socials backend core

Shallow embedding of the scheduled-post execution pipeline of the
auto-socials backend: the bounded retry wrapper, the per-post multi-account
executor with its usage-ledger quota, the scheduler loop's status
transition, the account lock, the payment-webhook handler and its
idempotent paid transition, and the user-facing cancel/repost operations.

Every definition is translated from the corresponding Python function in
the repository (file and function named above each definition); theorems
below settle the specification claims against these definitions.
-/

namespace AutoSocials

/-! ## Retry wrapper

Embedding of `_execute_with_retries` from
`app/app/workers/post_executor.py`.  A call to the wrapped function is
modelled by its outcome: normal return, the instagrapi `ValidationError`
(the known post-upload false negative), or any other exception (identified
by a numeric code).  The wrapper's behaviour is recorded in a trace: how
many times the wrapped function was invoked, how many seconds were slept
between attempts, and how the wrapper finished.
-/

/-- Outcome of one invocation of the wrapped publish function. -/
inductive AttemptResult where
  | success : AttemptResult
  | validationError : AttemptResult
  | failure (exc : Nat) : AttemptResult
deriving DecidableEq, Repr

/-- How the retry wrapper finished:
normal return after a successful call, normal return on the instagrapi
validation error (treated as success), or re-raising the last exception
(`raised none` models Python's degenerate `raise None` when the loop body
never ran). -/
inductive RetryResult where
  | returned : RetryResult
  | validationSuccess : RetryResult
  | raised (exc : Option Nat) : RetryResult
deriving DecidableEq, Repr

/-- Trace of one run of the retry wrapper. -/
structure RetryTrace where
  calls : Nat
  sleptSeconds : Nat
  result : RetryResult
deriving DecidableEq, Repr

/-- `MAX_RETRIES` in `post_executor.py`. -/
def MAX_RETRIES : Nat := 3

/-- `RETRY_DELAY_SECONDS` in `post_executor.py`. -/
def RETRY_DELAY_SECONDS : Nat := 5

/-- Loop of `_execute_with_retries`, structured on the number of attempts
still available (`remaining = max_attempts + 1 - attempt`): `attempt` is
the 1-based attempt counter, `f n` the outcome of the wrapped function on
its `n`-th invocation, `lastExc` Python's `last_exception`,
`calls`/`slept` the accounting so far.  When the attempts are exhausted
the loop falls through to `raise last_exception`; a failing attempt
sleeps `delay_seconds` only when another attempt remains
(`attempt < max_attempts`, i.e. `remaining > 1`). -/
def executeWithRetriesAux (f : Nat → AttemptResult) (delaySeconds : Nat) :
    Nat → Nat → Option Nat → Nat → Nat → RetryTrace
  | 0, _, lastExc, calls, slept => ⟨calls, slept, .raised lastExc⟩
  | remaining + 1, attempt, _lastExc, calls, slept =>
    match f attempt with
    | .success => ⟨calls + 1, slept, .returned⟩
    | .validationError => ⟨calls + 1, slept, .validationSuccess⟩
    | .failure exc =>
      let slept' := if remaining > 0 then slept + delaySeconds else slept
      executeWithRetriesAux f delaySeconds remaining
        (attempt + 1) (some exc) (calls + 1) slept'

/-- `_execute_with_retries(func, max_attempts, delay_seconds)`:
runs the loop from attempt 1 with no recorded exception. -/
def executeWithRetries (f : Nat → AttemptResult) (maxAttempts delaySeconds : Nat) :
    RetryTrace :=
  executeWithRetriesAux f delaySeconds maxAttempts 1 none 0 0

/-- The wrapper finished without raising (per-account caller sees success). -/
def RetryTrace.succeeded (t : RetryTrace) : Bool :=
  match t.result with
  | .returned => true
  | .validationSuccess => true
  | .raised _ => false

/-- If the wrapped function raises the validation error after `d` failing
attempts (and the loop has not been exhausted), the wrapper returns
normally on that very call: one more invocation, no further sleeping,
result `validationSuccess`. -/
theorem executeWithRetriesAux_validation (f : Nat → AttemptResult) (delay : Nat) :
    ∀ d remaining attempt lastExc calls slept,
      d < remaining →
      (∀ i, attempt ≤ i → i < attempt + d → ∃ e, f i = .failure e) →
      f (attempt + d) = .validationError →
      executeWithRetriesAux f delay remaining attempt lastExc calls slept =
        ⟨calls + d + 1, slept + d * delay, .validationSuccess⟩ := by
  intro d
  induction d with
  | zero =>
    intro remaining attempt lastExc calls slept hlt _ hval
    rw [Nat.add_zero] at hval
    cases remaining with
    | zero => omega
    | succ r =>
      rw [executeWithRetriesAux, hval]
      simp
  | succ d ih =>
    intro remaining attempt lastExc calls slept hlt hfail hval
    obtain ⟨e, he⟩ := hfail attempt (Nat.le_refl _) (by omega)
    cases remaining with
    | zero => omega
    | succ r =>
      rw [executeWithRetriesAux, he]
      have hr : r > 0 := by omega
      simp only [hr, if_true]
      have harith : attempt + 1 + d = attempt + (d + 1) := by omega
      rw [ih r (attempt + 1) (some e) (calls + 1) (slept + delay)
        (by omega)
        (by intro i h1 h2; exact hfail i (by omega) (by omega))
        (by rw [harith]; exact hval)]
      have h1 : calls + 1 + d + 1 = calls + (d + 1) + 1 := by omega
      have h2 : slept + delay + d * delay = slept + (d + 1) * delay := by ring
      rw [h1, h2]

/-- If every attempt fails with a non-validation exception, the loop makes
exactly `remaining` calls, sleeps between consecutive attempts but not
after the last, and re-raises the final attempt's exception. -/
theorem executeWithRetriesAux_allFail (f : Nat → AttemptResult) (delay : Nat)
    (e : Nat → Nat) :
    ∀ remaining attempt lastExc calls slept,
      1 ≤ remaining →
      (∀ i, attempt ≤ i → i < attempt + remaining → f i = .failure (e i)) →
      executeWithRetriesAux f delay remaining attempt lastExc calls slept =
        ⟨calls + remaining, slept + (remaining - 1) * delay,
          .raised (some (e (attempt + remaining - 1)))⟩ := by
  intro remaining
  induction remaining with
  | zero => intro attempt lastExc calls slept h; omega
  | succ r ih =>
    intro attempt lastExc calls slept _ hfail
    have he := hfail attempt (Nat.le_refl _) (by omega)
    rw [executeWithRetriesAux, he]
    cases r with
    | zero =>
      simp only [Nat.lt_irrefl, if_false]
      rw [executeWithRetriesAux]
      have h1 : calls + 1 = calls + 0 + 1 := by omega
      have h2 : attempt + 1 - 1 = attempt := by omega
      simp [h2]
    | succ r' =>
      have hr : r' + 1 > 0 := by omega
      simp only [hr, if_true]
      rw [ih (attempt + 1) (some (e attempt)) (calls + 1) (slept + delay)
        (by omega)
        (by intro i h1 h2; exact hfail i (by omega) (by omega))]
      have h1 : calls + 1 + (r' + 1) = calls + (r' + 1 + 1) := by omega
      have h2 : slept + delay + (r' + 1 - 1) * delay =
          slept + (r' + 1 + 1 - 1) * delay := by
        have : r' + 1 + 1 - 1 = (r' + 1 - 1) + 1 := by omega
        rw [this]
        ring
      have h3 : attempt + 1 + (r' + 1) - 1 = attempt + (r' + 1 + 1) - 1 := by
        omega
      rw [h1, h2, h3]

/-- The loop never invokes the wrapped function more than the remaining
number of attempts allows. -/
theorem executeWithRetriesAux_calls_le (f : Nat → AttemptResult) (delay : Nat) :
    ∀ remaining attempt lastExc calls slept,
      (executeWithRetriesAux f delay remaining attempt lastExc calls slept).calls ≤
        calls + remaining := by
  intro remaining
  induction remaining with
  | zero =>
    intro attempt lastExc calls slept
    rw [executeWithRetriesAux]
    show calls ≤ calls + 0
    omega
  | succ r ih =>
    intro attempt lastExc calls slept
    rw [executeWithRetriesAux]
    cases hf : f attempt with
    | success =>
      show calls + 1 ≤ calls + (r + 1)
      omega
    | validationError =>
      show calls + 1 ≤ calls + (r + 1)
      omega
    | failure exc =>
      dsimp only
      have := ih (attempt + 1) (some exc)
        (calls + 1) (if r > 0 then slept + delay else slept)
      omega

/-- **C4**: if an attempt of the wrapped publish function raises the known
validation-error class (the Instagram client library's post-upload false
negative), `_execute_with_retries` returns normally as a success on that
very attempt: no further retry attempts are consumed (exactly `k` calls,
sleeping only before attempt `k`), and no exception propagates to the
per-account caller. -/
theorem C4_retry_validationError_treated_as_success
    (f : Nat → AttemptResult) (delay k : Nat)
    (hk1 : 1 ≤ k) (hk : k ≤ MAX_RETRIES)
    (hprev : ∀ i, 1 ≤ i → i < k → ∃ e, f i = .failure e)
    (hval : f k = .validationError) :
    executeWithRetries f MAX_RETRIES delay =
      ⟨k, (k - 1) * delay, .validationSuccess⟩ ∧
    (executeWithRetries f MAX_RETRIES delay).succeeded = true := by
  have h := executeWithRetriesAux_validation f delay (k - 1) MAX_RETRIES 1 none 0 0
    (by omega)
    (by intro i h1 h2; exact hprev i h1 (by omega))
    (by
      have h1k : 1 + (k - 1) = k := by omega
      rw [h1k]; exact hval)
  unfold executeWithRetries
  rw [h]
  refine ⟨?_, rfl⟩
  have h1 : 0 + (k - 1) + 1 = k := by omega
  have h2 : 0 + (k - 1) * delay = (k - 1) * delay := by omega
  rw [h1, h2]

/-- Witness for C4: a publish function that raises the validation error on
its first call is treated as that account's success with zero retries
consumed and no sleeping. -/
theorem C4_witness :
    executeWithRetries (fun _ => .validationError) MAX_RETRIES RETRY_DELAY_SECONDS =
      ⟨1, 0, .validationSuccess⟩ :=
  (C4_retry_validationError_treated_as_success
    (fun _ => .validationError) RETRY_DELAY_SECONDS 1
    (by decide) (by decide) (by intro i h1 h2; omega) rfl).1

/-- **C9**: a publish function that raises a non-validation exception on
every attempt is called exactly `MAX_RETRIES = 3` times, with the fixed
`RETRY_DELAY_SECONDS = 5` sleep between consecutive attempts but not after
the final one (total 10 seconds), after which the wrapper re-raises the
last exception (attempt 3's) to the per-account caller, which sees a
failure (`succeeded = false`); moreover no run of the wrapper ever makes
more than `MAX_RETRIES` calls. -/
theorem C9_retry_exhaustion_reraises_last
    (f : Nat → AttemptResult) (e : Nat → Nat)
    (hf : ∀ i, 1 ≤ i → i ≤ MAX_RETRIES → f i = .failure (e i)) :
    executeWithRetries f MAX_RETRIES RETRY_DELAY_SECONDS =
      ⟨3, 2 * RETRY_DELAY_SECONDS, .raised (some (e 3))⟩ ∧
    (executeWithRetries f MAX_RETRIES RETRY_DELAY_SECONDS).succeeded = false ∧
    (∀ g : Nat → AttemptResult, ∀ delay,
      (executeWithRetries g MAX_RETRIES delay).calls ≤ MAX_RETRIES) := by
  have h := executeWithRetriesAux_allFail f RETRY_DELAY_SECONDS e
    MAX_RETRIES 1 none 0 0 (by decide)
    (by intro i h1 h2; exact hf i h1 (by omega))
  refine ⟨?_, ?_, ?_⟩
  · unfold executeWithRetries
    rw [h]
    rfl
  · unfold executeWithRetries
    rw [h]
    rfl
  · intro g delay
    have hle := executeWithRetriesAux_calls_le g delay MAX_RETRIES 1 none 0 0
    unfold executeWithRetries
    omega

/-- Witness for C9: a publish function that always raises exception code 7
is called exactly three times, sleeps 10 seconds in total, and the wrapper
re-raises exception 7 as the account's failure. -/
theorem C9_witness :
    executeWithRetries (fun _ => .failure 7) MAX_RETRIES RETRY_DELAY_SECONDS =
      ⟨3, 2 * RETRY_DELAY_SECONDS, .raised (some 7)⟩ :=
  (C9_retry_exhaustion_reraises_last (fun _ => .failure 7) (fun _ => 7)
    (by intro i h1 h2; rfl)).1

/-! ## Usage ledger

Embedding of `check_daily_limit`, `consume_daily_limit` and
`check_and_consume_limit` from `services/auth_database.py`, specialised to
the executor's call (`action="post"`, one fixed user and day).  The active
subscription is represented by its `posts_per_day` limit (`none` when
`require_active_subscription` raises `PermissionError`); the
`usage_counters` rows for today are the function `usage : String → Nat`
from platform to the `posts` column.
-/

/-- `check_daily_limit(conn, user_id, platform, "post")`: `true` when the
call returns, `false` when it raises `PermissionError` (no active
subscription, or `usage >= posts_per_day`). -/
def check_daily_limit (subscription : Option Nat) (usage : String → Nat)
    (platform : String) : Bool :=
  match subscription with
  | none => false
  | some limit => usage platform < limit

/-- `consume_daily_limit(conn, user_id, platform, "post")`: lazily creates
today's row and increments its `posts` counter by one. -/
def consume_daily_limit (usage : String → Nat) (platform : String) :
    String → Nat :=
  fun p => if p = platform then usage p + 1 else usage p

/-- `check_and_consume_limit(conn, user_id, platform, "post")`: checks the
limit, then consumes.  `none` models the `PermissionError` propagating
(nothing consumed); `some usage'` is the updated counters. -/
def check_and_consume_limit (subscription : Option Nat) (usage : String → Nat)
    (platform : String) : Option (String → Nat) :=
  if check_daily_limit subscription usage platform then
    some (consume_daily_limit usage platform)
  else
    none

/-! ## Post executor

Embedding of `execute_post` from `app/app/workers/post_executor.py`.  The
environment fixes everything the executor consults: the active
subscription's daily post limit, today's usage counters, whether
`get_valid_youtube_token` yields credentials for an account, and the
outcome of each invocation of the per-account publish closure (the body
run by `_execute_with_retries`, which includes lock acquisition,
credential resolution and the platform upload — any of which may raise).
-/

/-- ASCII lowercasing of one character (Python's `str.lower` restricted
to the ASCII platform names this codebase stores). -/
def lowerChar (c : Char) : Char :=
  if 'A' ≤ c ∧ c ≤ 'Z' then Char.ofNat (c.toNat + 32) else c

/-- `platform.lower()` on the ASCII platform strings. -/
def lowerString (s : String) : String :=
  ⟨s.data.map lowerChar⟩

/-- One row of `get_accounts_by_post_id`. -/
structure Account where
  id : Nat
  platform : String
deriving DecidableEq, Repr

/-- External state and behaviour consulted by one run of `execute_post`. -/
structure ExecEnv where
  subscription : Option Nat
  usage0 : String → Nat
  ytCreds : Nat → Bool
  attempt : Nat → Nat → AttemptResult

/-- The `post` dict fields `execute_post` reads before dispatching. -/
structure PostRec where
  id : Option Nat
  user_id : Option Nat
deriving DecidableEq, Repr

/-- Mutable facts accumulated during one `execute_post` run: today's usage
counters, one `(platform, account id, publish invocations)` entry per
account the retry wrapper was run for, and Python's `any_success`. -/
structure ExecState where
  usage : String → Nat
  callLog : List (String × Nat × Nat)
  anySuccess : Bool

/-- The retry wrapper's trace for one account's publish closure. -/
def account_attempt_trace (env : ExecEnv) (acc : Account) : RetryTrace :=
  executeWithRetries (env.attempt acc.id) MAX_RETRIES RETRY_DELAY_SECONDS

/-- Body of the inner `for account in platform_accounts` loop: dispatch on
the (lowercased) platform group key; Instagram and YouTube run the retry
wrapper (YouTube only after `get_valid_youtube_token` yields credentials —
otherwise the `RuntimeError` is caught by the per-account handler);
unsupported platforms are logged and skipped.  `any_success` is set only
when the retry wrapper returns without raising. -/
def processAccount (env : ExecEnv) (platform : String) (st : ExecState)
    (acc : Account) : ExecState :=
  if platform = "instagram" then
    let t := account_attempt_trace env acc
    { st with callLog := st.callLog ++ [(platform, acc.id, t.calls)],
              anySuccess := st.anySuccess || t.succeeded }
  else if platform = "youtube" then
    if env.ytCreds acc.id then
      let t := account_attempt_trace env acc
      { st with callLog := st.callLog ++ [(platform, acc.id, t.calls)],
                anySuccess := st.anySuccess || t.succeeded }
    else
      st
  else
    st

/-- Body of the outer `for platform, platform_accounts in
accounts_by_platform.items()` loop: enforce the limit once per platform;
on `PermissionError` skip the whole group and continue. -/
def processGroup (env : ExecEnv) (st : ExecState)
    (pg : String × List Account) : ExecState :=
  match check_and_consume_limit env.subscription st.usage pg.1 with
  | none => st
  | some usage' => pg.2.foldl (processAccount env pg.1) { st with usage := usage' }

/-- Insertion into the `accounts_by_platform` dict
(`setdefault(platform, []).append(acc)`), preserving Python's dict
insertion order. -/
def groupInsert : List (String × List Account) → String → Account →
    List (String × List Account)
  | [], p, a => [(p, [a])]
  | (q, l) :: rest, p, a =>
    if q = p then (q, l ++ [a]) :: rest else (q, l) :: groupInsert rest p a

/-- The `accounts_by_platform` grouping with lowercased platform keys. -/
def groupByPlatform (accs : List Account) : List (String × List Account) :=
  accs.foldl (fun gs a => groupInsert gs (lowerString a.platform) a) []

/-- Result of one `execute_post` run: the arguments of the
`update_post_status` calls in order, the accumulated state, and whether
the fatal handler re-raised to the Celery layer. -/
structure ExecOutcome where
  statusUpdates : List String
  finalState : ExecState
  raised : Bool

/-- State before the platform loop runs. -/
def initState (env : ExecEnv) : ExecState :=
  ⟨env.usage0, [], false⟩

/-- The two nested loops of `execute_post`: group the accounts by
lowercased platform, then process each platform group in dict order. -/
def executeGroups (env : ExecEnv) (accounts : List Account) : ExecState :=
  (groupByPlatform accounts).foldl (processGroup env) (initState env)

/-- `execute_post(post)` from `app/app/workers/post_executor.py`:
missing post id aborts with no status write; missing user id writes
`failed`; an empty account list raises `RuntimeError`, is caught by the
fatal handler (status `failed`) and re-raised; otherwise the platform
groups are processed and the aggregate `any_success` picks the terminal
status. -/
def execute_post (post : PostRec) (env : ExecEnv) (accounts : List Account) :
    ExecOutcome :=
  match post.id with
  | none => ⟨[], initState env, false⟩
  | some _ =>
    match post.user_id with
    | none => ⟨["failed"], initState env, false⟩
    | some _ =>
      if accounts.isEmpty then
        ⟨["processing", "failed"], initState env, true⟩
      else
        let st := executeGroups env accounts
        if st.anySuccess then
          ⟨["processing", "posted"], st, false⟩
        else
          ⟨["processing", "failed"], st, false⟩

/-- The last status recorded for the post. -/
def ExecOutcome.finalStatus (o : ExecOutcome) : Option String :=
  o.statusUpdates.getLast?

/-- The platform group passes the usage-ledger check (an active
subscription exists and today's counter is below its limit). -/
def platformAllowed (env : ExecEnv) (p : String) : Bool :=
  check_daily_limit env.subscription env.usage0 p

/-- The per-account publish succeeds under platform key `p`: for
Instagram, the retry wrapper finishes without raising; for YouTube,
credentials resolve and the retry wrapper finishes without raising; other
platforms are unsupported. -/
def accountSucceeds (env : ExecEnv) (p : String) (a : Account) : Bool :=
  if p = "instagram" then (account_attempt_trace env a).succeeded
  else if p = "youtube" then
    env.ytCreds a.id && (account_attempt_trace env a).succeeded
  else false

/-- Account `a` contributes a success to `any_success`: its platform group
is allowed by the ledger and its publish succeeds. -/
def accountWins (env : ExecEnv) (a : Account) : Bool :=
  platformAllowed env (lowerString a.platform) &&
    accountSucceeds env (lowerString a.platform) a

/-! ### Executor lemmas -/

theorem processAccount_usage (env : ExecEnv) (p : String) (st : ExecState)
    (a : Account) : (processAccount env p st a).usage = st.usage := by
  unfold processAccount
  by_cases h1 : p = "instagram"
  · simp [h1]
  · by_cases h2 : p = "youtube"
    · by_cases h3 : env.ytCreds a.id <;> simp [h1, h2, h3]
    · simp [h1, h2]

theorem processAccount_anySuccess (env : ExecEnv) (p : String) (st : ExecState)
    (a : Account) :
    (processAccount env p st a).anySuccess =
      (st.anySuccess || accountSucceeds env p a) := by
  unfold processAccount accountSucceeds
  by_cases h1 : p = "instagram"
  · simp [h1]
  · by_cases h2 : p = "youtube"
    · by_cases h3 : env.ytCreds a.id <;> simp [h1, h2, h3]
    · simp [h1, h2]

theorem processAccount_callLog (env : ExecEnv) (p : String) (st : ExecState)
    (a : Account) (e : String × Nat × Nat)
    (he : e ∈ (processAccount env p st a).callLog) :
    e ∈ st.callLog ∨ e.1 = p := by
  unfold processAccount at he
  by_cases h1 : p = "instagram"
  · simp [h1] at he
    rcases he with he | he
    · exact Or.inl he
    · right; rw [he, h1]
  · by_cases h2 : p = "youtube"
    · by_cases h3 : env.ytCreds a.id
      · simp [h1, h2, h3] at he
        rcases he with he | he
        · exact Or.inl he
        · right; rw [he, h2]
      · simp [h1, h2, h3] at he
        exact Or.inl he
    · simp [h1, h2] at he
      exact Or.inl he

theorem foldAccounts_usage (env : ExecEnv) (p : String) :
    ∀ (l : List Account) (st : ExecState),
      (l.foldl (processAccount env p) st).usage = st.usage := by
  intro l
  induction l with
  | nil => intro st; rfl
  | cons a l ih =>
    intro st
    rw [List.foldl_cons, ih, processAccount_usage]

theorem foldAccounts_anySuccess (env : ExecEnv) (p : String) :
    ∀ (l : List Account) (st : ExecState),
      (l.foldl (processAccount env p) st).anySuccess =
        (st.anySuccess || l.any (accountSucceeds env p)) := by
  intro l
  induction l with
  | nil => intro st; simp
  | cons a l ih =>
    intro st
    rw [List.foldl_cons, ih, processAccount_anySuccess, List.any_cons,
      Bool.or_assoc]

theorem foldAccounts_callLog (env : ExecEnv) (p : String) :
    ∀ (l : List Account) (st : ExecState) (e : String × Nat × Nat),
      e ∈ (l.foldl (processAccount env p) st).callLog →
      e ∈ st.callLog ∨ e.1 = p := by
  intro l
  induction l with
  | nil => intro st e he; exact Or.inl he
  | cons a l ih =>
    intro st e he
    rw [List.foldl_cons] at he
    rcases ih _ e he with h | h
    · exact processAccount_callLog env p st a e h
    · exact Or.inr h

theorem processGroup_blocked (env : ExecEnv) (st : ExecState) (p : String)
    (l : List Account)
    (h : check_daily_limit env.subscription st.usage p = false) :
    processGroup env st (p, l) = st := by
  unfold processGroup check_and_consume_limit
  simp [h]

theorem processGroup_allowed (env : ExecEnv) (st : ExecState) (p : String)
    (l : List Account)
    (h : check_daily_limit env.subscription st.usage p = true) :
    processGroup env st (p, l) =
      l.foldl (processAccount env p)
        { st with usage := consume_daily_limit st.usage p } := by
  unfold processGroup check_and_consume_limit
  simp [h]

theorem processGroup_usage (env : ExecEnv) (st : ExecState) (p : String)
    (l : List Account) (q : String) :
    (processGroup env st (p, l)).usage q =
      (if check_daily_limit env.subscription st.usage p = true ∧ q = p then
        st.usage q + 1 else st.usage q) := by
  by_cases h : check_daily_limit env.subscription st.usage p = true
  · rw [processGroup_allowed env st p l h, foldAccounts_usage]
    by_cases hq : q = p
    · simp [h, hq, consume_daily_limit]
    · simp [h, hq, consume_daily_limit]
  · rw [processGroup_blocked env st p l (by revert h; cases check_daily_limit env.subscription st.usage p <;> simp)]
    simp [h]

theorem processGroup_anySuccess (env : ExecEnv) (st : ExecState) (p : String)
    (l : List Account) :
    (processGroup env st (p, l)).anySuccess =
      (st.anySuccess ||
        (check_daily_limit env.subscription st.usage p &&
          l.any (accountSucceeds env p))) := by
  by_cases h : check_daily_limit env.subscription st.usage p = true
  · rw [processGroup_allowed env st p l h, foldAccounts_anySuccess]
    simp [h]
  · have hf : check_daily_limit env.subscription st.usage p = false := by
      revert h; cases check_daily_limit env.subscription st.usage p <;> simp
    rw [processGroup_blocked env st p l hf]
    simp [hf]

theorem processGroup_callLog (env : ExecEnv) (st : ExecState) (p : String)
    (l : List Account) (e : String × Nat × Nat)
    (he : e ∈ (processGroup env st (p, l)).callLog) :
    e ∈ st.callLog ∨
      (e.1 = p ∧ check_daily_limit env.subscription st.usage p = true) := by
  by_cases h : check_daily_limit env.subscription st.usage p = true
  · rw [processGroup_allowed env st p l h] at he
    rcases foldAccounts_callLog env p l _ e he with h1 | h1
    · exact Or.inl h1
    · exact Or.inr ⟨h1, h⟩
  · have hf : check_daily_limit env.subscription st.usage p = false := by
      revert h; cases check_daily_limit env.subscription st.usage p <;> simp
    rw [processGroup_blocked env st p l hf] at he
    exact Or.inl he

/-- Every member of a group carries the group's (lowercased) platform key. -/
def GroupWF (gs : List (String × List Account)) : Prop :=
  ∀ g ∈ gs, ∀ a ∈ g.2, (lowerString a.platform) = g.1

theorem groupInsert_keys (p : String) (a : Account) :
    ∀ gs : List (String × List Account),
      (groupInsert gs p a).map Prod.fst =
        (if p ∈ gs.map Prod.fst then gs.map Prod.fst
          else gs.map Prod.fst ++ [p]) := by
  intro gs
  induction gs with
  | nil => simp [groupInsert]
  | cons g rest ih =>
    obtain ⟨q, l⟩ := g
    by_cases hq : q = p
    · simp [groupInsert, hq]
    · simp only [groupInsert, hq, if_false, List.map_cons, ih]
      by_cases hmem : p ∈ rest.map Prod.fst
      · simp [hmem, Ne.symm hq]
      · simp [hmem, Ne.symm hq]

theorem groupInsert_wf (p : String) (a : Account)
    (hpa : (lowerString a.platform) = p) :
    ∀ gs : List (String × List Account),
      GroupWF gs → GroupWF (groupInsert gs p a) := by
  intro gs
  induction gs with
  | nil =>
    intro _ g hg x hx
    simp [groupInsert] at hg
    subst hg
    simp at hx
    subst hx
    exact hpa
  | cons g0 rest ih =>
    intro hwf g hg x hx
    obtain ⟨q, l⟩ := g0
    by_cases hq : q = p
    · subst hq
      simp only [groupInsert, if_pos rfl] at hg
      rcases List.mem_cons.mp hg with h | h
      · subst h
        show (lowerString x.platform) = q
        rcases List.mem_append.mp hx with h' | h'
        · exact hwf (q, l) (List.mem_cons_self _ _) x h'
        · simp at h'
          subst h'
          exact hpa
      · exact hwf g (List.mem_cons_of_mem _ h) x hx
    · simp only [groupInsert, hq, if_false] at hg
      rcases List.mem_cons.mp hg with h | h
      · subst h
        exact hwf (q, l) (List.mem_cons_self _ _) x hx
      · exact ih (fun g' hg' => hwf g' (List.mem_cons_of_mem _ hg')) g h x hx

theorem groupInsert_any (P : Account → Bool) (p : String) (a : Account) :
    ∀ gs : List (String × List Account),
      (groupInsert gs p a).any (fun g => g.2.any P) =
        (gs.any (fun g => g.2.any P) || P a) := by
  intro gs
  induction gs with
  | nil => simp [groupInsert]
  | cons g0 rest ih =>
    obtain ⟨q, l⟩ := g0
    by_cases hq : q = p
    · simp only [groupInsert, hq, if_true, List.any_cons]
      simp [Bool.or_assoc, Bool.or_comm, Bool.or_left_comm]
    · simp only [groupInsert, hq, if_false, List.any_cons, ih]
      simp [Bool.or_assoc]

theorem foldInsert_keys_nodup :
    ∀ (accs : List Account) (gs : List (String × List Account)),
      (gs.map Prod.fst).Nodup →
      ((accs.foldl (fun gs a => groupInsert gs (lowerString a.platform) a) gs).map
        Prod.fst).Nodup := by
  intro accs
  induction accs with
  | nil => intro gs h; exact h
  | cons a accs ih =>
    intro gs h
    rw [List.foldl_cons]
    apply ih
    rw [groupInsert_keys]
    by_cases hmem : (lowerString a.platform) ∈ gs.map Prod.fst
    · simp [hmem, h]
    · simp only [hmem, if_false]
      refine List.Nodup.append h (List.nodup_singleton _) ?_
      intro x hx1 hx2
      simp at hx2
      subst hx2
      exact hmem hx1

theorem foldInsert_wf :
    ∀ (accs : List Account) (gs : List (String × List Account)),
      GroupWF gs →
      GroupWF (accs.foldl (fun gs a => groupInsert gs (lowerString a.platform) a) gs) := by
  intro accs
  induction accs with
  | nil => intro gs h; exact h
  | cons a accs ih =>
    intro gs h
    rw [List.foldl_cons]
    exact ih _ (groupInsert_wf _ a rfl gs h)

theorem foldInsert_any (P : Account → Bool) :
    ∀ (accs : List Account) (gs : List (String × List Account)),
      (accs.foldl (fun gs a => groupInsert gs (lowerString a.platform) a) gs).any
        (fun g => g.2.any P) =
        (gs.any (fun g => g.2.any P) || accs.any P) := by
  intro accs
  induction accs with
  | nil => intro gs; simp
  | cons a accs ih =>
    intro gs
    rw [List.foldl_cons, ih, groupInsert_any, List.any_cons]
    simp [Bool.or_assoc, Bool.or_comm, Bool.or_left_comm]

theorem foldInsert_keys_mem (q : String) :
    ∀ (accs : List Account) (gs : List (String × List Account)),
      (q ∈ (accs.foldl (fun gs a => groupInsert gs (lowerString a.platform) a) gs).map
        Prod.fst ↔
        q ∈ gs.map Prod.fst ∨ ∃ a ∈ accs, (lowerString a.platform) = q) := by
  intro accs
  induction accs with
  | nil => intro gs; simp
  | cons a accs ih =>
    intro gs
    rw [List.foldl_cons, ih, groupInsert_keys]
    by_cases hmem : (lowerString a.platform) ∈ gs.map Prod.fst
    · simp only [hmem, if_true, List.mem_cons]
      constructor
      · rintro (h | ⟨x, hx, hxq⟩)
        · exact Or.inl h
        · exact Or.inr ⟨x, Or.inr hx, hxq⟩
      · rintro (h | ⟨x, rfl | hx, hxq⟩)
        · exact Or.inl h
        · exact Or.inl (hxq ▸ hmem)
        · exact Or.inr ⟨x, hx, hxq⟩
    · simp only [hmem, if_false, List.mem_append, List.mem_singleton,
        List.mem_cons, List.not_mem_nil, or_false]
      constructor
      · rintro ((h | h) | ⟨x, hx, hxq⟩)
        · exact Or.inl h
        · exact Or.inr ⟨a, Or.inl rfl, h.symm⟩
        · exact Or.inr ⟨x, Or.inr hx, hxq⟩
      · rintro (h | ⟨x, rfl | hx, hxq⟩)
        · exact Or.inl (Or.inl h)
        · exact Or.inl (Or.inr hxq.symm)
        · exact Or.inr ⟨x, hx, hxq⟩

theorem groupByPlatform_keys_nodup (accs : List Account) :
    ((groupByPlatform accs).map Prod.fst).Nodup :=
  foldInsert_keys_nodup accs [] (by simp)

theorem groupByPlatform_wf (accs : List Account) :
    GroupWF (groupByPlatform accs) :=
  foldInsert_wf accs [] (by intro g hg; simp at hg)

theorem groupByPlatform_any (P : Account → Bool) (accs : List Account) :
    (groupByPlatform accs).any (fun g => g.2.any P) = accs.any P := by
  unfold groupByPlatform
  rw [foldInsert_any]
  simp

theorem groupByPlatform_keys_mem (q : String) (accs : List Account) :
    q ∈ (groupByPlatform accs).map Prod.fst ↔
      ∃ a ∈ accs, (lowerString a.platform) = q := by
  unfold groupByPlatform
  rw [foldInsert_keys_mem]
  simp

theorem check_eq_platformAllowed (env : ExecEnv) (st : ExecState) (p : String)
    (hp : st.usage p = env.usage0 p) :
    check_daily_limit env.subscription st.usage p = platformAllowed env p := by
  unfold platformAllowed check_daily_limit
  cases env.subscription with
  | none => rfl
  | some limit => rw [hp]

theorem foldGroups_inv (env : ExecEnv) (st : ExecState) (p : String)
    (l : List Account) (rest : List (String × List Account))
    (hnd : ((p, l) :: rest).map Prod.fst |>.Nodup)
    (hinv : ∀ q ∈ ((p, l) :: rest).map Prod.fst, st.usage q = env.usage0 q) :
    ∀ q ∈ rest.map Prod.fst,
      (processGroup env st (p, l)).usage q = env.usage0 q := by
  intro q hq
  have hqp : q ≠ p := by
    intro h
    subst h
    simp only [List.map_cons, List.nodup_cons] at hnd
    exact hnd.1 hq
  rw [processGroup_usage]
  simp only [hqp, and_false, if_false]
  exact hinv q (by simp [hq])

theorem foldGroups_anySuccess (env : ExecEnv) :
    ∀ (gs : List (String × List Account)) (st : ExecState),
      (gs.map Prod.fst).Nodup →
      (∀ p ∈ gs.map Prod.fst, st.usage p = env.usage0 p) →
      (gs.foldl (processGroup env) st).anySuccess =
        (st.anySuccess ||
          gs.any (fun g =>
            platformAllowed env g.1 && g.2.any (accountSucceeds env g.1))) := by
  intro gs
  induction gs with
  | nil => intro st _ _; simp
  | cons g rest ih =>
    intro st hnd hinv
    obtain ⟨p, l⟩ := g
    have hpas := check_eq_platformAllowed env st p (hinv p (by simp))
    have hnd' : (rest.map Prod.fst).Nodup := by
      simp only [List.map_cons, List.nodup_cons] at hnd
      exact hnd.2
    rw [List.foldl_cons,
      ih _ hnd' (foldGroups_inv env st p l rest hnd hinv),
      processGroup_anySuccess, hpas, List.any_cons, Bool.or_assoc]

theorem foldGroups_usage (env : ExecEnv) :
    ∀ (gs : List (String × List Account)) (st : ExecState),
      (gs.map Prod.fst).Nodup →
      (∀ p ∈ gs.map Prod.fst, st.usage p = env.usage0 p) →
      ∀ q, (gs.foldl (processGroup env) st).usage q =
        (if q ∈ gs.map Prod.fst ∧ platformAllowed env q = true then
          st.usage q + 1 else st.usage q) := by
  intro gs
  induction gs with
  | nil => intro st _ _ q; simp
  | cons g rest ih =>
    intro st hnd hinv q
    obtain ⟨p, l⟩ := g
    have hpas := check_eq_platformAllowed env st p (hinv p (by simp))
    have hnd' : (rest.map Prod.fst).Nodup := by
      simp only [List.map_cons, List.nodup_cons] at hnd
      exact hnd.2
    rw [List.foldl_cons,
      ih _ hnd' (foldGroups_inv env st p l rest hnd hinv) q]
    by_cases hqp : q = p
    · subst hqp
      have hnotin : q ∉ rest.map Prod.fst := by
        simp only [List.map_cons, List.nodup_cons] at hnd
        exact hnd.1
      simp only [hnotin, false_and, if_false]
      rw [processGroup_usage]
      by_cases hall : platformAllowed env q = true
      · simp [hpas, hall]
      · simp [hpas, hall]
    · have h1 : (processGroup env st (p, l)).usage q = st.usage q := by
        rw [processGroup_usage]
        simp [hqp]
      rw [h1]
      have hmem : (q ∈ p :: rest.map Prod.fst) ↔ q ∈ rest.map Prod.fst := by
        simp [hqp]
      simp only [List.map_cons]
      by_cases hq : q ∈ rest.map Prod.fst
      · simp [hq, hmem.mpr hq]
      · have : q ∉ p :: rest.map Prod.fst := fun h => hq (hmem.mp h)
        simp [hq, this]

theorem foldGroups_callLog (env : ExecEnv) :
    ∀ (gs : List (String × List Account)) (st : ExecState),
      (gs.map Prod.fst).Nodup →
      (∀ p ∈ gs.map Prod.fst, st.usage p = env.usage0 p) →
      ∀ e ∈ (gs.foldl (processGroup env) st).callLog,
        e ∈ st.callLog ∨ platformAllowed env e.1 = true := by
  intro gs
  induction gs with
  | nil => intro st _ _ e he; exact Or.inl he
  | cons g rest ih =>
    intro st hnd hinv e he
    obtain ⟨p, l⟩ := g
    have hpas := check_eq_platformAllowed env st p (hinv p (by simp))
    have hnd' : (rest.map Prod.fst).Nodup := by
      simp only [List.map_cons, List.nodup_cons] at hnd
      exact hnd.2
    rw [List.foldl_cons] at he
    rcases ih _ hnd' (foldGroups_inv env st p l rest hnd hinv) e he with h | h
    · rcases processGroup_callLog env st p l e h with h' | h'
      · exact Or.inl h'
      · right
        rw [h'.1, ← hpas]
        exact h'.2
    · exact Or.inr h

theorem list_any_and {α : Type} (b : Bool) (f : α → Bool) :
    ∀ l : List α, (b && l.any f) = l.any (fun x => b && f x) := by
  intro l
  induction l with
  | nil => simp
  | cons x l ih =>
    rw [List.any_cons, List.any_cons, ← ih, Bool.and_or_distrib_left]

theorem list_any_congr {α : Type} {f g : α → Bool} :
    ∀ l : List α, (∀ x ∈ l, f x = g x) → l.any f = l.any g := by
  intro l
  induction l with
  | nil => intro _; rfl
  | cons x l ih =>
    intro h
    rw [List.any_cons, List.any_cons, h x (List.mem_cons_self _ _),
      ih (fun y hy => h y (List.mem_cons_of_mem _ hy))]

theorem perm_any_eq {α : Type} (f : α → Bool) {l1 l2 : List α}
    (h : l1.Perm l2) : l1.any f = l2.any f := by
  cases h1 : l1.any f <;> cases h2 : l2.any f
  · rfl
  · rw [List.any_eq_true] at h2
    obtain ⟨x, hx, hfx⟩ := h2
    have hc : l1.any f = true := List.any_eq_true.mpr ⟨x, h.mem_iff.mpr hx, hfx⟩
    rw [h1] at hc
    cases hc
  · rw [List.any_eq_true] at h1
    obtain ⟨x, hx, hfx⟩ := h1
    have hc : l2.any f = true := List.any_eq_true.mpr ⟨x, h.mem_iff.mp hx, hfx⟩
    rw [h2] at hc
    cases hc
  · rfl

theorem executeGroups_anySuccess (env : ExecEnv) (accounts : List Account) :
    (executeGroups env accounts).anySuccess = accounts.any (accountWins env) := by
  unfold executeGroups
  rw [foldGroups_anySuccess env _ _ (groupByPlatform_keys_nodup accounts)
    (fun p _ => rfl)]
  have hstep : (groupByPlatform accounts).any
      (fun g => platformAllowed env g.1 && g.2.any (accountSucceeds env g.1)) =
      (groupByPlatform accounts).any (fun g => g.2.any (accountWins env)) := by
    apply list_any_congr
    intro g hg
    rw [list_any_and]
    apply list_any_congr
    intro x hx
    have hkey := groupByPlatform_wf accounts g hg x hx
    unfold accountWins
    rw [hkey]
  rw [hstep, groupByPlatform_any]
  simp [initState]

theorem executeGroups_usage (env : ExecEnv) (accounts : List Account)
    (q : String) :
    (executeGroups env accounts).usage q =
      (if (∃ a ∈ accounts, (lowerString a.platform) = q) ∧
          platformAllowed env q = true then
        env.usage0 q + 1 else env.usage0 q) := by
  unfold executeGroups
  rw [foldGroups_usage env _ _ (groupByPlatform_keys_nodup accounts)
    (fun p _ => rfl) q]
  simp only [groupByPlatform_keys_mem, initState]

theorem executeGroups_callLog (env : ExecEnv) (accounts : List Account) :
    ∀ e ∈ (executeGroups env accounts).callLog,
      platformAllowed env e.1 = true := by
  intro e he
  unfold executeGroups at he
  rcases foldGroups_callLog env _ _ (groupByPlatform_keys_nodup accounts)
    (fun p _ => rfl) e he with h | h
  · simp [initState] at h
  · exact h

/-- For a valid post (id and user id present, nonempty account list) the
executor writes `processing` then the aggregate terminal status, does not
re-raise, and the final state is the platform-loop fold. -/
theorem execute_post_valid (post : PostRec) (env : ExecEnv)
    (accounts : List Account) (pid uid : Nat)
    (hid : post.id = some pid) (huid : post.user_id = some uid)
    (hne : accounts ≠ []) :
    execute_post post env accounts =
      ⟨["processing",
          if accounts.any (accountWins env) then "posted" else "failed"],
        executeGroups env accounts, false⟩ := by
  unfold execute_post
  rw [hid, huid]
  have hemp : accounts.isEmpty = false := by
    cases accounts with
    | nil => exact absurd rfl hne
    | cons a l => rfl
  simp only [hemp, Bool.false_eq_true, if_false]
  rw [executeGroups_anySuccess]
  by_cases h : accounts.any (accountWins env) = true
  · simp [h]
  · simp only [Bool.not_eq_true] at h
    simp [h]

/-- **C3**: for a valid executed post with a non-empty target account
list, the final status is `posted` exactly when at least one target
account's publish operation succeeds (`accountWins`), `failed` when no
account succeeds, and this aggregate is invariant under permutation of
the target account list (it does not depend on the order in which
accounts are attempted). -/
theorem C3_aggregate_status_order_independent (post : PostRec) (env : ExecEnv)
    (accounts : List Account) (pid uid : Nat)
    (hid : post.id = some pid) (huid : post.user_id = some uid)
    (hne : accounts ≠ []) :
    (accounts.any (accountWins env) = true →
      (execute_post post env accounts).finalStatus = some "posted") ∧
    (accounts.any (accountWins env) = false →
      (execute_post post env accounts).finalStatus = some "failed") ∧
    (∀ accounts' : List Account, accounts'.Perm accounts →
      (execute_post post env accounts').finalStatus =
        (execute_post post env accounts).finalStatus) := by
  refine ⟨?_, ?_, ?_⟩
  · intro h
    rw [execute_post_valid post env accounts pid uid hid huid hne]
    simp [ExecOutcome.finalStatus, h]
  · intro h
    rw [execute_post_valid post env accounts pid uid hid huid hne]
    simp [ExecOutcome.finalStatus, h]
  · intro accounts' hperm
    have hne' : accounts' ≠ [] := by
      intro hnil
      subst hnil
      have hlen := hperm.length_eq
      cases accounts with
      | nil => exact hne rfl
      | cons a l => simp at hlen
    rw [execute_post_valid post env accounts pid uid hid huid hne,
      execute_post_valid post env accounts' pid uid hid huid hne',
      perm_any_eq (accountWins env) hperm]
    rfl

/-- Witness for C3: a post targeting two Instagram accounts where account
1's publish always raises and account 2's always succeeds ends `posted`;
with both always raising it ends `failed`; swapping the two accounts does
not change the aggregate status. -/
theorem C3_witness :
    (execute_post ⟨some 1, some 1⟩
        ⟨some 10, fun _ => 0, fun _ => false,
          fun accId _ => if accId = 2 then .success else .failure 1⟩
        [⟨1, "Instagram"⟩, ⟨2, "Instagram"⟩]).finalStatus = some "posted" ∧
    (execute_post ⟨some 1, some 1⟩
        ⟨some 10, fun _ => 0, fun _ => false, fun _ _ => .failure 1⟩
        [⟨1, "Instagram"⟩, ⟨2, "Instagram"⟩]).finalStatus = some "failed" ∧
    (execute_post ⟨some 1, some 1⟩
        ⟨some 10, fun _ => 0, fun _ => false,
          fun accId _ => if accId = 2 then .success else .failure 1⟩
        [⟨2, "Instagram"⟩, ⟨1, "Instagram"⟩]).finalStatus =
      (execute_post ⟨some 1, some 1⟩
        ⟨some 10, fun _ => 0, fun _ => false,
          fun accId _ => if accId = 2 then .success else .failure 1⟩
        [⟨1, "Instagram"⟩, ⟨2, "Instagram"⟩]).finalStatus := by
  refine ⟨?_, ?_, ?_⟩
  · exact (C3_aggregate_status_order_independent ⟨some 1, some 1⟩
      ⟨some 10, fun _ => 0, fun _ => false,
        fun accId _ => if accId = 2 then .success else .failure 1⟩
      [⟨1, "Instagram"⟩, ⟨2, "Instagram"⟩] 1 1 rfl rfl
      (by decide)).1 (by decide)
  · exact (C3_aggregate_status_order_independent ⟨some 1, some 1⟩
      ⟨some 10, fun _ => 0, fun _ => false, fun _ _ => .failure 1⟩
      [⟨1, "Instagram"⟩, ⟨2, "Instagram"⟩] 1 1 rfl rfl
      (by decide)).2.1 (by decide)
  · exact (C3_aggregate_status_order_independent ⟨some 1, some 1⟩
      ⟨some 10, fun _ => 0, fun _ => false,
        fun accId _ => if accId = 2 then .success else .failure 1⟩
      [⟨1, "Instagram"⟩, ⟨2, "Instagram"⟩] 1 1 rfl rfl
      (by decide)).2.2 [⟨2, "Instagram"⟩, ⟨1, "Instagram"⟩]
      (List.Perm.swap _ _ _)

/-- **C5**: for a valid executed post, the daily usage limit is
checked-and-consumed exactly once per platform group (the counter of a
platform rises by exactly one when some targeted account lives on it and
the ledger allows it, regardless of how many accounts share the
platform); when the check raises `PermissionError`
(`platformAllowed = false`: no active subscription or limit reached) no
account of that platform group reaches the publish wrapper (no call-log
entry), and execution continues — nothing is re-raised and the final
status is still determined by the remaining accounts. -/
theorem C5_limit_once_per_platform_group (post : PostRec) (env : ExecEnv)
    (accounts : List Account) (pid uid : Nat)
    (hid : post.id = some pid) (huid : post.user_id = some uid)
    (hne : accounts ≠ []) :
    (∀ q, (execute_post post env accounts).finalState.usage q =
        (if (∃ a ∈ accounts, (lowerString a.platform) = q) ∧
            platformAllowed env q = true then
          env.usage0 q + 1 else env.usage0 q)) ∧
    (∀ p, platformAllowed env p = false →
        ∀ e ∈ (execute_post post env accounts).finalState.callLog, e.1 ≠ p) ∧
    (execute_post post env accounts).raised = false ∧
    (execute_post post env accounts).finalStatus =
      some (if accounts.any (accountWins env) then "posted" else "failed") := by
  rw [execute_post_valid post env accounts pid uid hid huid hne]
  refine ⟨?_, ?_, rfl, ?_⟩
  · intro q
    exact executeGroups_usage env accounts q
  · intro p hp e he hep
    have hall := executeGroups_callLog env accounts e he
    rw [hep, hp] at hall
    cases hall
  · by_cases h : accounts.any (accountWins env) = true
    · simp [ExecOutcome.finalStatus, h]
    · simp only [Bool.not_eq_true] at h
      simp [ExecOutcome.finalStatus, h]

/-- Witness for C5: with the daily limit already reached for instagram
(usage 3 of 3) but youtube still free, a post targeting two Instagram
accounts and one YouTube account consumes only youtube's unit, makes no
publish attempt for instagram, does not raise, and still ends `posted`
thanks to the YouTube account. -/
theorem C5_witness :
    ((execute_post ⟨some 1, some 1⟩
        ⟨some 3, (fun p => if p = "instagram" then 3 else 0), fun _ => true,
          fun _ _ => .success⟩
        [⟨1, "Instagram"⟩, ⟨2, "Instagram"⟩, ⟨3, "YouTube"⟩]).finalState.usage
        "instagram" = 3 ∧
      (execute_post ⟨some 1, some 1⟩
        ⟨some 3, (fun p => if p = "instagram" then 3 else 0), fun _ => true,
          fun _ _ => .success⟩
        [⟨1, "Instagram"⟩, ⟨2, "Instagram"⟩, ⟨3, "YouTube"⟩]).finalState.usage
        "youtube" = 1) ∧
    (∀ e ∈ (execute_post ⟨some 1, some 1⟩
        ⟨some 3, (fun p => if p = "instagram" then 3 else 0), fun _ => true,
          fun _ _ => .success⟩
        [⟨1, "Instagram"⟩, ⟨2, "Instagram"⟩, ⟨3, "YouTube"⟩]).finalState.callLog,
      e.1 ≠ "instagram") ∧
    (execute_post ⟨some 1, some 1⟩
        ⟨some 3, (fun p => if p = "instagram" then 3 else 0), fun _ => true,
          fun _ _ => .success⟩
        [⟨1, "Instagram"⟩, ⟨2, "Instagram"⟩, ⟨3, "YouTube"⟩]).finalStatus =
      some "posted" := by
  have h := C5_limit_once_per_platform_group ⟨some 1, some 1⟩
    ⟨some 3, (fun p => if p = "instagram" then 3 else 0), fun _ => true,
      fun _ _ => .success⟩
    [⟨1, "Instagram"⟩, ⟨2, "Instagram"⟩, ⟨3, "YouTube"⟩] 1 1 rfl rfl
    (by decide)
  refine ⟨⟨?_, ?_⟩, ?_, ?_⟩
  · rw [h.1 "instagram"]
    decide
  · rw [h.1 "youtube"]
    decide
  · exact h.2.1 "instagram" (by decide)
  · rw [h.2.2.2]
    decide

/-- **C10**: for a valid executed post, one daily usage unit is consumed
per targeted platform group whose ledger check passes — whatever the
publish outcomes (`env.attempt`, `env.ytCreds` are arbitrary, and the
platform need not even be supported) — and the counters never decrease:
a fully failed execution still keeps the consumed unit for each platform
it targeted. -/
theorem C10_unit_consumed_per_targeted_platform (post : PostRec)
    (env : ExecEnv) (accounts : List Account) (pid uid : Nat)
    (hid : post.id = some pid) (huid : post.user_id = some uid)
    (hne : accounts ≠ []) :
    (∀ q, ((∃ a ∈ accounts, (lowerString a.platform) = q) ∧
        platformAllowed env q = true) →
        (execute_post post env accounts).finalState.usage q =
          env.usage0 q + 1) ∧
    (∀ q, env.usage0 q ≤ (execute_post post env accounts).finalState.usage q) := by
  rw [execute_post_valid post env accounts pid uid hid huid hne]
  constructor
  · intro q hq
    show (executeGroups env accounts).usage q = env.usage0 q + 1
    rw [executeGroups_usage]
    simp [hq]
  · intro q
    show env.usage0 q ≤ (executeGroups env accounts).usage q
    rw [executeGroups_usage]
    by_cases h : (∃ a ∈ accounts, (lowerString a.platform) = q) ∧
        platformAllowed env q = true
    · simp [h]
    · simp [h]

/-- Witness for C10: a post targeting a single unsupported platform
("Tiktok") with every publish outcome failing still consumes one unit for
"tiktok", and the counter did not decrease anywhere. -/
theorem C10_witness :
    (execute_post ⟨some 1, some 1⟩
        ⟨some 3, (fun _ => 0), fun _ => false, fun _ _ => .failure 1⟩
        [⟨5, "Tiktok"⟩]).finalState.usage "tiktok" = 1 ∧
    (0:Nat) ≤ (execute_post ⟨some 1, some 1⟩
        ⟨some 3, (fun _ => 0), fun _ => false, fun _ _ => .failure 1⟩
        [⟨5, "Tiktok"⟩]).finalState.usage "instagram" := by
  have h := C10_unit_consumed_per_targeted_platform ⟨some 1, some 1⟩
    ⟨some 3, (fun _ => 0), fun _ => false, fun _ _ => .failure 1⟩
    [⟨5, "Tiktok"⟩] 1 1 rfl rfl (by decide)
  exact ⟨h.1 "tiktok" (by decide), h.2 "instagram"⟩

/-! ## Post store and scheduler loop

Embedding of `update_post_status` and `get_due_posts` from
`app/services/database.py` and of `SchedulerWorker._check_and_dispatch`
from `workers/scheduler.py`, plus the user-facing `cancel_post`
(`app/api/posts.py`) and `reset_post_for_repost`
(`app/services/database.py`).  The `posts` table is a list of rows;
timestamps are numbers.
-/

/-- One row of the `posts` table, restricted to the columns these
operations read or write. -/
structure PostRow where
  id : Nat
  status : String
  errorMessage : Option String
  scheduledTime : Option Nat
deriving DecidableEq, Repr

/-- `update_post_status(post_id, status, error_message=None)`:
`UPDATE posts SET status = %s, error_message = %s WHERE id = %s` —
the update is unconditional on the current status (guarded only by the
in-process `_db_lock`) and the function returns nothing (no affected-row
count). -/
def update_post_status (posts : List PostRow) (postId : Nat) (status : String)
    (errorMessage : Option String) : List PostRow :=
  posts.map (fun p =>
    if p.id = postId then
      { p with status := status, errorMessage := errorMessage }
    else p)

/-- Insertion into a list kept sorted by `scheduled_time` (the query's
`ORDER BY scheduled_time ASC`). -/
def insertByTime (p : PostRow) : List PostRow → List PostRow
  | [] => [p]
  | q :: rest =>
    if p.scheduledTime.getD 0 ≤ q.scheduledTime.getD 0 then p :: q :: rest
    else q :: insertByTime p rest

/-- Sorting by `scheduled_time` ascending. -/
def sortByTime : List PostRow → List PostRow
  | [] => []
  | p :: rest => insertByTime p (sortByTime rest)

/-- `get_due_posts()`: rows with `status = 'Pending'`, a non-null
`scheduled_time` that has arrived, ordered by `scheduled_time` ASC. -/
def get_due_posts (posts : List PostRow) (now : Nat) : List PostRow :=
  sortByTime (posts.filter (fun p =>
    p.status == "Pending" && p.scheduledTime.isSome &&
      p.scheduledTime.getD 0 ≤ now))

/-- The dispatch loop of `_check_and_dispatch`: for each fetched due post,
mark it `queued` and submit its id to Celery
(`execute_scheduled_post.delay`); returns the updated table and the task
submissions in order. -/
def dispatchDue (posts : List PostRow) (due : List PostRow) :
    List PostRow × List Nat :=
  due.foldl
    (fun acc p => (update_post_status acc.1 p.id "queued" none, acc.2 ++ [p.id]))
    (posts, [])

/-- One scheduler poll cycle (`SchedulerWorker._check_and_dispatch`). -/
def check_and_dispatch (posts : List PostRow) (now : Nat) :
    List PostRow × List Nat :=
  dispatchDue posts (get_due_posts posts now)

/-- Two scheduler cycles racing on the same table: both poll
`get_due_posts` against the same snapshot (neither update has committed
yet), then each runs its mark-queued-and-dispatch loop. -/
def two_racing_cycles (posts : List PostRow) (now : Nat) :
    List PostRow × List Nat :=
  let due := get_due_posts posts now
  let r1 := dispatchDue posts due
  let r2 := dispatchDue r1.1 due
  (r2.1, r1.2 ++ r2.2)

/-- `cancel_post` (`PATCH /posts/{id}/cancel` in `app/api/posts.py`):
404 when the row is absent; otherwise the row's current status is
fetched (and ignored) and the post is updated to `cancelled` with
`scheduled_time = NULL`, whatever its current status. -/
def cancel_post (posts : List PostRow) (postId : Nat) :
    Option (List PostRow) :=
  if posts.any (fun p => p.id == postId) then
    some (posts.map (fun p =>
      if p.id = postId then
        { p with status := "cancelled", scheduledTime := none }
      else p))
  else none

/-- `reset_post_for_repost(post_id)` (`app/services/database.py`):
`UPDATE posts SET status = 'Pending' WHERE id = %s`; `rowcount = 0`
raises `ValueError` (mapped to 404 by the route), with no condition on
the current status. -/
def reset_post_for_repost (posts : List PostRow) (postId : Nat) :
    Option (List PostRow) :=
  if posts.any (fun p => p.id == postId) then
    some (posts.map (fun p =>
      if p.id = postId then { p with status := "Pending" } else p))
  else none

theorem dispatchDue_submissions (due : List PostRow) :
    ∀ (posts : List PostRow) (subs : List Nat),
      (due.foldl
        (fun acc p =>
          (update_post_status acc.1 p.id "queued" none, acc.2 ++ [p.id]))
        (posts, subs)).2 = subs ++ due.map PostRow.id := by
  induction due with
  | nil => intro posts subs; simp
  | cons p due ih =>
    intro posts subs
    rw [List.foldl_cons, ih]
    simp

/-- **C2** (counterexample): `update_post_status` does not match only rows
with status `'Pending'` — it re-statuses a post already `'posted'` — and
two racing scheduler cycles that polled the same snapshot submit the same
due post twice, not once. -/
theorem C2_counterexample :
    update_post_status [⟨1, "posted", none, none⟩] 1 "queued" none =
      [⟨1, "queued", none, none⟩] ∧
    (two_racing_cycles [⟨1, "Pending", none, some 5⟩] 10).2 = [1, 1] := by
  constructor
  · decide
  · decide

/-- **C2** (amended): the Pending→queued transition in the code is an
unconditional `UPDATE ... WHERE id = %s` with no status condition and no
affected-row count: the row with the given id is rewritten whatever its
current status while all other rows are untouched; a single poll cycle
submits each fetched due post exactly once, but two cycles racing on the
same due snapshot submit every due post twice. -/
theorem C2_unconditional_update_and_double_dispatch :
    (∀ (posts : List PostRow) (postId : Nat) (st : String)
        (em : Option String) (p : PostRow), p ∈ posts → p.id = postId →
      { p with status := st, errorMessage := em } ∈
        update_post_status posts postId st em) ∧
    (∀ (posts : List PostRow) (postId : Nat) (st : String)
        (em : Option String) (p : PostRow), p ∈ posts → p.id ≠ postId →
      p ∈ update_post_status posts postId st em) ∧
    (∀ (posts : List PostRow) (now : Nat),
      (check_and_dispatch posts now).2 =
        (get_due_posts posts now).map PostRow.id) ∧
    (∀ (posts : List PostRow) (now : Nat),
      (two_racing_cycles posts now).2 =
        (get_due_posts posts now).map PostRow.id ++
          (get_due_posts posts now).map PostRow.id) := by
  refine ⟨?_, ?_, ?_, ?_⟩
  · intro posts postId st em p hp hid
    unfold update_post_status
    refine List.mem_map.mpr ⟨p, hp, ?_⟩
    simp [hid]
  · intro posts postId st em p hp hid
    unfold update_post_status
    refine List.mem_map.mpr ⟨p, hp, ?_⟩
    simp [hid]
  · intro posts now
    unfold check_and_dispatch dispatchDue
    rw [dispatchDue_submissions]
    simp
  · intro posts now
    unfold two_racing_cycles dispatchDue
    dsimp only
    rw [dispatchDue_submissions, dispatchDue_submissions]
    simp

/-- Witness for the amended C2: in a one-row table whose post is
`'posted'`, the update still rewrites it to `'queued'`; a single cycle
over a one-due-post table submits `[1]`; the racing pair submits
`[1, 1]`. -/
theorem C2_witness :
    { id := 1, status := "queued", errorMessage := none,
        scheduledTime := (none : Option Nat) } ∈
      update_post_status [⟨1, "posted", none, none⟩] 1 "queued" none ∧
    (check_and_dispatch [⟨1, "Pending", none, some 5⟩] 10).2 = [1] ∧
    (two_racing_cycles [⟨1, "Pending", none, some 5⟩] 10).2 = [1, 1] := by
  have h := C2_unconditional_update_and_double_dispatch
  refine ⟨?_, ?_, ?_⟩
  · exact h.1 [⟨1, "posted", none, none⟩] 1 "queued" none
      ⟨1, "posted", none, none⟩ (by decide) rfl
  · have h3 := h.2.2.1 [⟨1, "Pending", none, some 5⟩] 10
    rw [h3]
    decide
  · have h4 := h.2.2.2 [⟨1, "Pending", none, some 5⟩] 10
    rw [h4]
    decide

/-- **C7**: evaluation of the code at the failing inputs: `cancel_post`
cancels (and clears the schedule of) a post whose status is `'posted'`,
and `reset_post_for_repost` moves a `'posted'` post back to `'Pending'` —
the status checks the claim describes do not exist in the code. -/
theorem C7_code_behavior_at_failing_input :
    cancel_post [⟨1, "posted", none, some 5⟩] 1 =
      some [⟨1, "cancelled", none, none⟩] ∧
    reset_post_for_repost [⟨1, "posted", none, some 5⟩] 1 =
      some [⟨1, "Pending", none, some 5⟩] := by
  constructor
  · decide
  · decide

/-! ## Account lock

Embedding of `InstagramAccountLock.acquire` / `.release` from
`utils/instagram_lock.py`.  The Redis key's state is `Option String`
(`none` = free, `some v` = held with ownership value `v`); `errAt n`
says whether the Redis client raises `redis.RedisError` on the `n`-th
attempt of the acquire loop.
-/

/-- The `while time.time() - start < wait_seconds` loop of `acquire`:
each iteration issues `SET key value NX EX ttl`.  On `RedisError` the
code logs and *fails open*, returning `True` without having stored
anything; on a free key the SET stores this holder's value and returns
`True`; on a held key it sleeps one second and retries until the wait is
exhausted, then returns `False`. -/
def acquireLoop (errAt : Nat → Bool) (token : String) :
    Nat → Nat → Option String → Bool × Option String
  | 0, _, stored => (false, stored)
  | fuel + 1, n, stored =>
    if errAt n then (true, stored)
    else
      match stored with
      | none => (true, some token)
      | some v => acquireLoop errAt token fuel (n + 1) (some v)

/-- `InstagramAccountLock.acquire(wait_seconds=30)`: run the loop with
the instance's random `lock_value`. -/
def acquire (errAt : Nat → Bool) (token : String) (waitSeconds : Nat)
    (stored : Option String) : Bool × Option String :=
  acquireLoop errAt token waitSeconds 1 stored

/-- `InstagramAccountLock.release()`: `GET` the current value and
`DELETE` the key only when it equals this holder's `lock_value`
(ownership check); on `RedisError`, or on a mismatch, the key is left
untouched. -/
def release (err : Bool) (token : String) (stored : Option String) :
    Option String :=
  if err then stored
  else
    match stored with
    | some v => if v = token then none else stored
    | none => stored

theorem acquireLoop_held (errAt : Nat → Bool) (token v : String)
    (hnoerr : ∀ n, errAt n = false) :
    ∀ fuel n, acquireLoop errAt token fuel n (some v) = (false, some v) := by
  intro fuel
  induction fuel with
  | zero => intro n; rfl
  | succ fuel ih =>
    intro n
    rw [acquireLoop, hnoerr n]
    simp only [Bool.false_eq_true, if_false]
    exact ih (n + 1)

theorem acquireLoop_free (errAt : Nat → Bool) (token : String)
    (hnoerr : ∀ n, errAt n = false) (fuel n : Nat) :
    acquireLoop errAt token (fuel + 1) n none = (true, some token) := by
  rw [acquireLoop, hnoerr n]
  simp

/-- **C8** (counterexample): with the Redis client raising on the SET,
`acquire` *fails open*: it returns `true` although this holder's token
was never stored and the key still carries a different holder's token —
so two holders hold the same account lock at once, refuting "acquire
returns true only when this holder's token has been stored". -/
theorem C8_counterexample :
    (acquire (fun _ => true) "tokenB" 30 (some "tokenA")).1 = true ∧
    (acquire (fun _ => true) "tokenB" 30 (some "tokenA")).2 = some "tokenA" ∧
    "tokenA" ≠ "tokenB" := by
  refine ⟨?_, ?_, ?_⟩
  · decide
  · decide
  · decide

/-- **C8** (amended): except for the deliberate fail-open on a Redis
error, the lock behaves as claimed: in error-free runs `acquire` returns
true exactly when the key was free (and the wait positive), in which case
this holder's token is stored — so a second holder's error-free acquire
on a held key returns false (at most one holder) — and a failed acquire
leaves the stored value untouched; `release` deletes the stored lock only
when it still equals this holder's token and never removes a different
holder's value. -/
theorem C8_lock_ownership_except_fail_open (errAt : Nat → Bool)
    (token : String) (wait : Nat) (stored : Option String)
    (hnoerr : ∀ n, errAt n = false) :
    ((acquire errAt token wait stored).1 = true ↔
      stored = none ∧ 1 ≤ wait) ∧
    ((acquire errAt token wait stored).1 = true →
      (acquire errAt token wait stored).2 = some token) ∧
    ((acquire errAt token wait stored).1 = false →
      (acquire errAt token wait stored).2 = stored) ∧
    (release false token (some token) = none) ∧
    (∀ v, v ≠ token → release false token (some v) = some v) ∧
    (∀ err stored' v, release err token stored' = none →
      stored' = some v → v = token) := by
  have hacq : acquire errAt token wait stored =
      (match stored, wait with
        | none, 0 => (false, none)
        | none, _ + 1 => (true, some token)
        | some v, _ => (false, some v)) := by
    unfold acquire
    cases stored with
    | none =>
      cases wait with
      | zero => rfl
      | succ w => rw [acquireLoop_free errAt token hnoerr]
    | some v => rw [acquireLoop_held errAt token v hnoerr]
  refine ⟨?_, ?_, ?_, ?_, ?_, ?_⟩
  · rw [hacq]
    cases stored with
    | none =>
      cases wait with
      | zero => simp
      | succ w => simp
    | some v =>
      cases wait with
      | zero => simp
      | succ w => simp
  · rw [hacq]
    cases stored with
    | none =>
      cases wait with
      | zero => simp
      | succ w => simp
    | some v =>
      cases wait with
      | zero => simp
      | succ w => simp
  · rw [hacq]
    cases stored with
    | none =>
      cases wait with
      | zero => simp
      | succ w => simp
    | some v =>
      cases wait with
      | zero => simp
      | succ w => simp
  · simp [release]
  · intro v hv
    simp [release, hv]
  · intro err stored' v hrel hst
    subst hst
    unfold release at hrel
    cases err with
    | true => simp at hrel
    | false =>
      simp only at hrel
      by_cases hvt : v = token
      · exact hvt
      · rw [if_neg hvt] at hrel
        cases hrel

/-- Witness for the amended C8: with no Redis errors, acquiring a free
lock with token "t" succeeds and stores "t"; a second error-free acquire
with token "u" then fails and leaves "t" in place; releasing with the
wrong token keeps the lock, releasing with "t" frees it. -/
theorem C8_witness :
    (acquire (fun _ => false) "t" 30 none).1 = true ∧
    (acquire (fun _ => false) "t" 30 none).2 = some "t" ∧
    (acquire (fun _ => false) "u" 30 (some "t")).1 = false ∧
    (acquire (fun _ => false) "u" 30 (some "t")).2 = some "t" ∧
    release false "u" (some "t") = some "t" ∧
    release false "t" (some "t") = none := by
  have h1 := C8_lock_ownership_except_fail_open (fun _ => false) "t" 30 none
    (fun _ => rfl)
  have h2 := C8_lock_ownership_except_fail_open (fun _ => false) "u" 30
    (some "t") (fun _ => rfl)
  refine ⟨?_, ?_, ?_, ?_, ?_, ?_⟩
  · exact h1.1.mpr ⟨rfl, by omega⟩
  · exact h1.2.1 (h1.1.mpr ⟨rfl, by omega⟩)
  · cases hb : (acquire (fun _ => false) "u" 30 (some "t")).1 with
    | false => rfl
    | true =>
      have := h2.1.mp hb
      cases this.1
  · apply h2.2.2.1
    cases hb : (acquire (fun _ => false) "u" 30 (some "t")).1 with
    | false => rfl
    | true =>
      have := h2.1.mp hb
      cases this.1
  · exact h2.2.2.2.2.1 "t" (by decide)
  · exact h1.2.2.2.1

/-! ## Payment ledger and webhook handler

Embedding of `mark_payment_paid` and `activate_subscription_for_user`
from `services/auth_database.py` and of the `zeroid_webhook` route of
`app/api/payments.py` (the handler mounted by `app/main.py`).  The
ledger state holds the `payment_intents` rows (keyed by their unique
`zeroid_reference`), the post-payment rows, the `user_subscriptions`
table, and logs of the side effects (subscription activations, post
materializations via `add_post`, Celery submissions).
-/

/-- A `payment_intents` row (fields the webhook path touches). -/
structure PaymentIntent where
  userId : Nat
  planId : Nat
  status : String
deriving DecidableEq, Repr

/-- A post-payment intent row: owner and the embedded post-creation
payload (abstracted to a payload id). -/
structure PostPayment where
  userId : Nat
  postData : Nat
  status : String
deriving DecidableEq, Repr

/-- A `user_subscriptions` row. -/
structure Subscription where
  userId : Nat
  planId : Nat
  isActive : Bool
deriving DecidableEq, Repr

/-- The webhook-visible database state plus side-effect logs. -/
structure LedgerState where
  intents : List (String × PaymentIntent)
  postPayments : List (String × PostPayment)
  subs : List Subscription
  subsActivated : List (Nat × Nat)
  postsCreated : List Nat
  tasksSubmitted : List Nat
deriving DecidableEq, Repr

/-- The `SET status = 'paid'` part of the conditional update, applied to
the rows keyed by `ref`. -/
def markIntentsPaid : List (String × PaymentIntent) → String →
    List (String × PaymentIntent)
  | [], _ => []
  | (k, v) :: rest, ref =>
    (if k = ref then (k, { v with status := "paid" }) else (k, v)) ::
      markIntentsPaid rest ref

/-- `mark_payment_paid(conn, zeroid_reference)`: the single atomic
`UPDATE payment_intents SET status='paid' WHERE zeroid_reference = %s AND
status != 'paid' RETURNING user_id, plan_id` — the row is returned only
when the update matched (first call). -/
def mark_payment_paid (st : LedgerState) (ref : String) :
    Option (Nat × Nat) × LedgerState :=
  match st.intents.lookup ref with
  | some pi =>
    if pi.status ≠ "paid" then
      (some (pi.userId, pi.planId),
        { st with intents := markIntentsPaid st.intents ref })
    else (none, st)
  | none => (none, st)

/-- `activate_subscription_for_user(conn, user_id, plan_id)`: deactivate
every subscription of the user, then insert one active row (the plan's
duration lookup, which only feeds the inserted `end_date`, is elided). -/
def activate_subscription_for_user (st : LedgerState)
    (userId planId : Nat) : LedgerState :=
  { st with
      subs :=
        st.subs.map (fun s =>
          if s.userId = userId then { s with isActive := false } else s) ++
          [{ userId := userId, planId := planId, isActive := true }],
      subsActivated := st.subsActivated ++ [(userId, planId)] }

/-- The `SET status = 'paid'` update on the post-payment rows keyed by
`ref`. -/
def markPostPaymentsPaid : List (String × PostPayment) → String →
    List (String × PostPayment)
  | [], _ => []
  | (k, v) :: rest, ref =>
    (if k = ref then (k, { v with status := "paid" }) else (k, v)) ::
      markPostPaymentsPaid rest ref

/-- Modelled from the spec: `get_pending_post_payment(conn, reference)`
is imported by `app/api/payments.py` from the auth database module but
its definition is not among the sources; per §4.4 it looks up whether the
reference corresponds to a post-payment intent (the handler then checks
the row's status itself). -/
def get_pending_post_payment (st : LedgerState) (ref : String) :
    Option PostPayment :=
  st.postPayments.lookup ref

/-- Modelled from the spec: `mark_post_payment_paid(conn, reference)` is
imported by `app/api/payments.py` but not among the sources; per §4.4 it
is the same single atomic mark-paid-only-if-not-already-paid update as
`mark_payment_paid`, returning the row (`user_id`, `post_data`) only on
the first call. -/
def mark_post_payment_paid (st : LedgerState) (ref : String) :
    Option (Nat × Nat) × LedgerState :=
  match st.postPayments.lookup ref with
  | some pp =>
    if pp.status ≠ "paid" then
      (some (pp.userId, pp.postData),
        { st with postPayments := markPostPaymentsPaid st.postPayments ref })
    else (none, st)
  | none => (none, st)

/-- The JSON fields the handler reads from the webhook payload. -/
structure Payload where
  reference : Option String
  status : Option String
  event : Option String
deriving DecidableEq, Repr

/-- Python truthiness of an optional string field
(`payload.get(...)`). -/
def truthy : Option String → Bool
  | none => false
  | some s => !(s == "")

/-- The handler's success normalization: `is_success` is set from a
truthy `status` matching "paid"/"success"/"successful" (lowercased), then
or-ed with a truthy `event` matching "payment.success"/"payment.paid"
(lowercased). -/
def is_success (p : Payload) : Bool :=
  (match p.status with
    | some s =>
      if s ≠ "" then ["paid", "success", "successful"].contains (lowerString s)
      else false
    | none => false) ||
  (match p.event with
    | some e =>
      if e ≠ "" then ["payment.success", "payment.paid"].contains (lowerString e)
      else false
    | none => false)

/-- The webhook's HTTP-level outcomes. -/
inductive WebhookResp where
  | badRequest
  | ignored
  | duplicate
  | postCreated (userId postData : Nat)
  | postError
  | subscriptionOk
deriving DecidableEq, Repr

/-- The subscription path of the handler: idempotent paid transition,
then (first call only) subscription activation. -/
def subscription_branch (st : LedgerState) (ref : String) :
    WebhookResp × LedgerState :=
  match mark_payment_paid st ref with
  | (none, st1) => (.duplicate, st1)
  | (some row, st1) =>
    (.subscriptionOk, activate_subscription_for_user st1 row.1 row.2)

/-- `zeroid_webhook` from `app/api/payments.py` (the handler mounted by
`app/main.py`): 400 on a missing (falsy) `reference`; non-success events
acknowledged and ignored; a pending post payment is marked paid and its
embedded post materialized and scheduled (`addPostOk = false` models
`add_post` raising, which is caught and reported without failing the
webhook); otherwise the subscription path runs.  The second tuple
component is the state after the request. -/
def zeroid_webhook (addPostOk : Bool) (st : LedgerState) (p : Payload) :
    WebhookResp × LedgerState :=
  if truthy p.reference = false then (.badRequest, st)
  else
    match p.reference with
    | none => (.badRequest, st)
    | some ref =>
      if is_success p = false then (.ignored, st)
      else
        match get_pending_post_payment st ref with
        | some pp =>
          if pp.status = "pending" then
            match mark_post_payment_paid st ref with
            | (none, st1) => (.duplicate, st1)
            | (some row, st1) =>
              if addPostOk then
                (.postCreated row.1 row.2,
                  { st1 with
                      postsCreated := st1.postsCreated ++ [row.2],
                      tasksSubmitted := st1.tasksSubmitted ++ [row.2] })
              else (.postError, st1)
          else subscription_branch st ref
        | none => subscription_branch st ref

/-- `N` deliveries of the same payload, threading the state. -/
def runWebhookN (addPostOk : Bool) (p : Payload) :
    Nat → LedgerState → List WebhookResp × LedgerState
  | 0, st => ([], st)
  | n + 1, st =>
    let r := zeroid_webhook addPostOk st p
    let rest := runWebhookN addPostOk p n r.2
    (r.1 :: rest.1, rest.2)

/-- Total count of downstream paid side effects: subscription
activations plus post materializations. -/
def sideEffectCount (st : LedgerState) : Nat :=
  st.subsActivated.length + st.postsCreated.length

/-! ### Webhook lemmas -/

theorem lookup_markIntentsPaid (ref : String) :
    ∀ l : List (String × PaymentIntent),
      (markIntentsPaid l ref).lookup ref =
        (l.lookup ref).map (fun pi => { pi with status := "paid" }) := by
  intro l
  induction l with
  | nil => rfl
  | cons e rest ih =>
    obtain ⟨k, v⟩ := e
    by_cases hk : k = ref
    · subst hk
      rw [markIntentsPaid, if_pos rfl]
      simp [List.lookup]
    · have hbeq : (ref == k) = false := by
        simp only [beq_eq_false_iff_ne, ne_eq]
        exact fun h => hk h.symm
      rw [markIntentsPaid, if_neg hk]
      simp only [List.lookup, hbeq]
      exact ih

theorem lookup_markPostPaymentsPaid (ref : String) :
    ∀ l : List (String × PostPayment),
      (markPostPaymentsPaid l ref).lookup ref =
        (l.lookup ref).map (fun pp => { pp with status := "paid" }) := by
  intro l
  induction l with
  | nil => rfl
  | cons e rest ih =>
    obtain ⟨k, v⟩ := e
    by_cases hk : k = ref
    · subst hk
      rw [markPostPaymentsPaid, if_pos rfl]
      simp [List.lookup]
    · have hbeq : (ref == k) = false := by
        simp only [beq_eq_false_iff_ne, ne_eq]
        exact fun h => hk h.symm
      rw [markPostPaymentsPaid, if_neg hk]
      simp only [List.lookup, hbeq]
      exact ih

/-- On a state where the reference is already fully paid (no pending
post-payment row, no unpaid intent row), a success delivery is answered
`duplicate` and changes nothing. -/
theorem zeroid_webhook_duplicate (addPostOk : Bool) (st : LedgerState)
    (p : Payload) (ref : String)
    (href : p.reference = some ref) (hne : ref ≠ "")
    (hsucc : is_success p = true)
    (hpost : st.postPayments.lookup ref = none ∨
      ∃ pp, st.postPayments.lookup ref = some pp ∧ pp.status = "paid")
    (hint : st.intents.lookup ref = none ∨
      ∃ pi, st.intents.lookup ref = some pi ∧ pi.status = "paid") :
    zeroid_webhook addPostOk st p = (.duplicate, st) := by
  have htr : truthy p.reference = true := by
    rw [href]
    simp [truthy, hne]
  have hsub : subscription_branch st ref = (.duplicate, st) := by
    unfold subscription_branch mark_payment_paid
    rcases hint with h | ⟨pi, hpi, hpaid⟩
    · rw [h]
    · rw [hpi]
      simp [hpaid]
  unfold zeroid_webhook
  rw [htr, href, hsucc]
  simp only [Bool.true_eq_false, if_false]
  unfold get_pending_post_payment
  rcases hpost with h | ⟨pp, hpp, hpaid⟩
  · rw [h]
    exact hsub
  · rw [hpp]
    simp [hpaid, hsub]

/-- Once one delivery leaves the handler in a state it answers
`duplicate` without changing, every further delivery does the same. -/
theorem runWebhookN_absorb (addPostOk : Bool) (p : Payload)
    (st : LedgerState)
    (habs : zeroid_webhook addPostOk st p = (.duplicate, st)) :
    ∀ n, runWebhookN addPostOk p n st =
      (List.replicate n .duplicate, st) := by
  intro n
  induction n with
  | zero => rfl
  | succ n ih =>
    rw [runWebhookN, habs]
    simp only
    rw [ih]
    rfl

/-- First success delivery for a pending subscription intent: the
intent's row is marked paid, the subscription activated, response
`subscriptionOk`. -/
theorem zeroid_webhook_first_sub (addPostOk : Bool) (st : LedgerState)
    (p : Payload) (ref : String) (pi : PaymentIntent)
    (href : p.reference = some ref) (hne : ref ≠ "")
    (hsucc : is_success p = true)
    (hpp : st.postPayments.lookup ref = none)
    (hpi : st.intents.lookup ref = some pi) (hpend : pi.status ≠ "paid") :
    zeroid_webhook addPostOk st p =
      (.subscriptionOk,
        activate_subscription_for_user
          { st with intents := markIntentsPaid st.intents ref }
          pi.userId pi.planId) := by
  have htr : truthy p.reference = true := by
    rw [href]
    simp [truthy, hne]
  unfold zeroid_webhook
  rw [htr, href, hsucc]
  simp only [Bool.true_eq_false, if_false]
  unfold get_pending_post_payment
  rw [hpp]
  unfold subscription_branch mark_payment_paid
  rw [hpi]
  simp [hpend]

/-- First success delivery for a pending post payment (with `add_post`
succeeding): the post-payment row is marked paid, the post materialized
and submitted, response `postCreated`. -/
theorem zeroid_webhook_first_post (st : LedgerState)
    (p : Payload) (ref : String) (pp : PostPayment)
    (href : p.reference = some ref) (hne : ref ≠ "")
    (hsucc : is_success p = true)
    (hpp : st.postPayments.lookup ref = some pp)
    (hpend : pp.status = "pending") :
    zeroid_webhook true st p =
      (.postCreated pp.userId pp.postData,
        { st with
            postPayments := markPostPaymentsPaid st.postPayments ref,
            postsCreated := st.postsCreated ++ [pp.postData],
            tasksSubmitted := st.tasksSubmitted ++ [pp.postData] }) := by
  have htr : truthy p.reference = true := by
    rw [href]
    simp [truthy, hne]
  have hnp : pp.status ≠ "paid" := by
    rw [hpend]
    decide
  unfold zeroid_webhook
  rw [htr, href, hsucc]
  simp only [Bool.true_eq_false, if_false]
  unfold get_pending_post_payment
  rw [hpp]
  unfold mark_post_payment_paid
  rw [hpp]
  simp [hpend, hnp]

/-- **C1**: for any ledger in which the reference names a pending intent
(subscription intent with no post-payment row, or pending post-payment
row with no subscription intent) and any `N ≥ 1` success deliveries of
that reference, the intent transitions to `paid` exactly once: delivery 1
performs exactly one side effect (subscription activation or post
materialization) and answers accordingly, deliveries 2..N all answer
`duplicate`, and the state after `N` deliveries equals the state after
the first — the conditional mark-paid update returns the affected row
only on the first call. -/
theorem C1_webhook_exactly_once_paid (p : Payload) (ref : String)
    (st0 : LedgerState) (N : Nat)
    (href : p.reference = some ref) (hne : ref ≠ "")
    (hsucc : is_success p = true) (hN : 1 ≤ N)
    (hpending :
      (st0.postPayments.lookup ref = none ∧
        ∃ pi, st0.intents.lookup ref = some pi ∧ pi.status = "pending") ∨
      ((∃ pp, st0.postPayments.lookup ref = some pp ∧ pp.status = "pending") ∧
        st0.intents.lookup ref = none)) :
    sideEffectCount (runWebhookN true p N st0).2 = sideEffectCount st0 + 1 ∧
    ((runWebhookN true p N st0).1.head? = some .subscriptionOk ∨
      ∃ u d, (runWebhookN true p N st0).1.head? = some (.postCreated u d)) ∧
    (runWebhookN true p N st0).1.tail = List.replicate (N - 1) .duplicate ∧
    (((runWebhookN true p N st0).2.intents.lookup ref).map
        PaymentIntent.status = some "paid" ∨
      ((runWebhookN true p N st0).2.postPayments.lookup ref).map
        PostPayment.status = some "paid") ∧
    (runWebhookN true p N st0).2 = (runWebhookN true p 1 st0).2 := by
  obtain ⟨M, rfl⟩ : ∃ M, N = M + 1 := ⟨N - 1, by omega⟩
  have hstep : ∀ st : LedgerState, runWebhookN true p (M + 1) st =
      ((zeroid_webhook true st p).1 ::
        (runWebhookN true p M (zeroid_webhook true st p).2).1,
        (runWebhookN true p M (zeroid_webhook true st p).2).2) :=
    fun st => rfl
  have hone : ∀ st : LedgerState, runWebhookN true p 1 st =
      ([(zeroid_webhook true st p).1], (zeroid_webhook true st p).2) :=
    fun st => rfl
  rcases hpending with ⟨hpp, pi, hpi, hpend⟩ | ⟨⟨pp, hpp, hpend⟩, hin⟩
  · have hfirst := zeroid_webhook_first_sub true st0 p ref pi href hne hsucc
      hpp hpi (by rw [hpend]; decide)
    have hlook : (activate_subscription_for_user
        { st0 with intents := markIntentsPaid st0.intents ref }
        pi.userId pi.planId).intents.lookup ref =
        some { pi with status := "paid" } := by
      show (markIntentsPaid st0.intents ref).lookup ref = _
      rw [lookup_markIntentsPaid, hpi]
      rfl
    have habs := zeroid_webhook_duplicate true
      (activate_subscription_for_user
        { st0 with intents := markIntentsPaid st0.intents ref }
        pi.userId pi.planId) p ref href hne hsucc
      (Or.inl hpp) (Or.inr ⟨_, hlook, rfl⟩)
    rw [hstep st0, hone st0, hfirst]
    dsimp only
    rw [runWebhookN_absorb true p _ habs M]
    refine ⟨?_, Or.inl rfl, rfl, Or.inl (by rw [hlook]; rfl), rfl⟩
    simp [sideEffectCount, activate_subscription_for_user]
    omega
  · have hfirst := zeroid_webhook_first_post st0 p ref pp href hne hsucc
      hpp hpend
    have hlook : ({ st0 with
        postPayments := markPostPaymentsPaid st0.postPayments ref,
        postsCreated := st0.postsCreated ++ [pp.postData],
        tasksSubmitted := st0.tasksSubmitted ++ [pp.postData]
        } : LedgerState).postPayments.lookup ref =
        some { pp with status := "paid" } := by
      show (markPostPaymentsPaid st0.postPayments ref).lookup ref = _
      rw [lookup_markPostPaymentsPaid, hpp]
      rfl
    have habs := zeroid_webhook_duplicate true
      ({ st0 with
        postPayments := markPostPaymentsPaid st0.postPayments ref,
        postsCreated := st0.postsCreated ++ [pp.postData],
        tasksSubmitted := st0.tasksSubmitted ++ [pp.postData] }) p ref
      href hne hsucc (Or.inr ⟨_, hlook, rfl⟩) (Or.inl hin)
    rw [hstep st0, hone st0, hfirst]
    dsimp only
    rw [runWebhookN_absorb true p _ habs M]
    refine ⟨?_, Or.inr ⟨pp.userId, pp.postData, rfl⟩, rfl,
      Or.inr (by rw [hlook]; rfl), rfl⟩
    simp [sideEffectCount]
    omega

/-- Witness for C1: a ledger holding one pending subscription intent for
reference "r1"; two deliveries of `{"reference":"r1","status":"PAID"}`
activate the subscription exactly once, answer `subscriptionOk` then
`duplicate`, leave the intent `paid`, and the second delivery changes
nothing. -/
theorem C1_witness :
    sideEffectCount
        (runWebhookN true ⟨some "r1", some "PAID", none⟩ 2
          ⟨[("r1", ⟨7, 2, "pending"⟩)], [], [], [], [], []⟩).2 =
      sideEffectCount (⟨[("r1", ⟨7, 2, "pending"⟩)], [], [], [], [], []⟩ :
        LedgerState) + 1 ∧
    (runWebhookN true ⟨some "r1", some "PAID", none⟩ 2
        ⟨[("r1", ⟨7, 2, "pending"⟩)], [], [], [], [], []⟩).1.tail =
      List.replicate 1 .duplicate := by
  have h := C1_webhook_exactly_once_paid ⟨some "r1", some "PAID", none⟩ "r1"
    ⟨[("r1", ⟨7, 2, "pending"⟩)], [], [], [], [], []⟩ 2
    rfl (by decide) (by decide) (by decide)
    (Or.inl ⟨rfl, ⟨7, 2, "pending"⟩, rfl, rfl⟩)
  exact ⟨h.1, h.2.2.1⟩

theorem contains3_iff (s a b c : String) :
    ([a, b, c].contains s = true) ↔ (s = a ∨ s = b ∨ s = c) := by
  simp [List.contains, List.elem_cons]

theorem contains2_iff (s a b : String) :
    ([a, b].contains s = true) ↔ (s = a ∨ s = b) := by
  simp [List.contains, List.elem_cons]

/-- The spec's success condition, stated independently of the handler:
the `status` field, lowercased, is one of "paid", "success",
"successful", or the `event` field, lowercased, is one of
"payment.success", "payment.paid". -/
def specSuccess (p : Payload) : Prop :=
  (∃ s, p.status = some s ∧
    (lowerString s = "paid" ∨ lowerString s = "success" ∨
      lowerString s = "successful")) ∨
  (∃ e, p.event = some e ∧
    (lowerString e = "payment.success" ∨ lowerString e = "payment.paid"))

/-- **C6**: a payload with a missing (falsy) `reference` is rejected with
400 and no side effects; the handler treats a payload as a success signal
exactly when its `status`, lowercased, is "paid"/"success"/"successful"
or its `event`, lowercased, is "payment.success"/"payment.paid"; a
payload with a reference and no success signal is acknowledged `ignored`
with the state unchanged, while a success payload is never answered
`ignored` or 400. -/
theorem C6_webhook_payload_validation (addPostOk : Bool) (st : LedgerState)
    (p : Payload) :
    (truthy p.reference = false →
      zeroid_webhook addPostOk st p = (.badRequest, st)) ∧
    (is_success p = true ↔ specSuccess p) ∧
    (truthy p.reference = true → is_success p = false →
      zeroid_webhook addPostOk st p = (.ignored, st)) ∧
    (truthy p.reference = true → is_success p = true →
      (zeroid_webhook addPostOk st p).1 ≠ .ignored ∧
      (zeroid_webhook addPostOk st p).1 ≠ .badRequest) := by
  refine ⟨?_, ?_, ?_, ?_⟩
  · intro h
    unfold zeroid_webhook
    rw [h]
    rfl
  · unfold is_success specSuccess
    cases hs : p.status with
    | none =>
      cases he : p.event with
      | none => simp
      | some e =>
        by_cases hee : e = ""
        · subst hee
          simp [contains2_iff, lowerString]
        · simp [hee, contains2_iff]
    | some s =>
      cases he : p.event with
      | none =>
        by_cases hse : s = ""
        · subst hse
          simp [contains3_iff, lowerString]
        · simp [hse, contains3_iff]
      | some e =>
        by_cases hse : s = ""
        · by_cases hee : e = ""
          · subst hse hee
            simp [contains3_iff, contains2_iff, lowerString]
          · subst hse
            simp [hee, contains3_iff, contains2_iff, lowerString]
        · by_cases hee : e = ""
          · subst hee
            simp [hse, contains3_iff, contains2_iff, lowerString]
          · simp [hse, hee, contains3_iff, contains2_iff]
  · intro htr hfa
    unfold zeroid_webhook
    rw [htr]
    simp only [Bool.true_eq_false, if_false]
    cases href : p.reference with
    | none => rw [href] at htr; cases htr
    | some ref =>
      dsimp only
      rw [hfa]
      rfl
  · intro htr hsu
    unfold zeroid_webhook subscription_branch
    rw [htr]
    simp only [Bool.true_eq_false, if_false]
    cases href : p.reference with
    | none => rw [href] at htr; cases htr
    | some ref =>
      dsimp only
      rw [hsu]
      simp only [Bool.true_eq_false, if_false]
      cases hg : get_pending_post_payment st ref with
      | some pp =>
        dsimp only
        by_cases hps : pp.status = "pending"
        · rw [if_pos hps]
          rcases hm : mark_post_payment_paid st ref with ⟨row, st1⟩
          cases row with
          | none => simp
          | some r =>
            cases addPostOk with
            | true => simp
            | false => simp
        · rw [if_neg hps]
          rcases hm : mark_payment_paid st ref with ⟨row, st1⟩
          cases row with
          | none => simp
          | some r => simp
      | none =>
        dsimp only
        rcases hm : mark_payment_paid st ref with ⟨row, st1⟩
        cases row with
        | none => simp
        | some r => simp

/-- Witness for C6: `{"status":"PAID"}` without a reference is a 400
no-op; `{"reference":"r1","status":"pending"}` is acknowledged `ignored`
with no state change; `{"reference":"r1","status":"PAID"}` and
`{"reference":"r1","event":"payment.success"}` are success signals while
`{"reference":"r1","status":"pending"}` is not. -/
theorem C6_witness :
    zeroid_webhook true ⟨[], [], [], [], [], []⟩ ⟨none, some "PAID", none⟩ =
      (.badRequest, ⟨[], [], [], [], [], []⟩) ∧
    zeroid_webhook true ⟨[], [], [], [], [], []⟩
        ⟨some "r1", some "pending", none⟩ =
      (.ignored, ⟨[], [], [], [], [], []⟩) ∧
    specSuccess ⟨some "r1", some "PAID", none⟩ ∧
    specSuccess ⟨some "r1", none, some "payment.success"⟩ ∧
    ¬ specSuccess ⟨some "r1", some "pending", none⟩ := by
  have h1 := C6_webhook_payload_validation true ⟨[], [], [], [], [], []⟩
    ⟨none, some "PAID", none⟩
  have h2 := C6_webhook_payload_validation true ⟨[], [], [], [], [], []⟩
    ⟨some "r1", some "pending", none⟩
  have h3 := C6_webhook_payload_validation true ⟨[], [], [], [], [], []⟩
    ⟨some "r1", some "PAID", none⟩
  have h4 := C6_webhook_payload_validation true ⟨[], [], [], [], [], []⟩
    ⟨some "r1", none, some "payment.success"⟩
  refine ⟨h1.1 (by decide), h2.2.2.1 (by decide) (by decide),
    h3.2.1.mp (by decide), h4.2.1.mp (by decide), ?_⟩
  intro hcontra
  have := h2.2.1.mpr hcontra
  revert this
  decide

end AutoSocials
